import Mathlib

/-!
Verification of the ridekick research extension's analytic core: a shallow
embedding of the speaker aggregator, the hypothesis evaluator, the pain-point
classifier and the source-fetch requests, together with theorems settling the
specification's claims about them.

Strings are modelled as Lean strings over their character lists; the inputs of
interest are ASCII, where JavaScript's UTF-16 code-unit length, toLowerCase,
slice, trim and substring search agree with the character-level model used
here.  JavaScript Map objects are modelled as insertion-ordered association
lists (updating an existing key keeps its position, new keys are appended);
the stable Array.prototype.sort with a numeric descending comparator is
modelled as a stable insertion sort on the same key.
-/

namespace Ridekick

/-- Substring test on character lists: does the haystack contain the needle as
a contiguous sublist, at any position (JavaScript String.prototype.includes)? -/
def listIncludes (needle : List Char) : List Char → Bool
  | [] => needle.isEmpty
  | c :: cs => needle.isPrefixOf (c :: cs) || listIncludes needle cs

/-- JavaScript-style substring test on strings. -/
def strIncludes (hay needle : String) : Bool :=
  listIncludes needle.data hay.data

/-- JavaScript String.prototype.trim: drop leading and trailing whitespace. -/
def jsTrim (s : String) : String :=
  String.mk (((s.data.dropWhile Char.isWhitespace).reverse.dropWhile Char.isWhitespace).reverse)

/-- Character-wise lowercasing (JavaScript String.prototype.toLowerCase on the
ASCII texts in scope). -/
def strToLower (s : String) : String :=
  String.mk (s.data.map Char.toLower)

/-- The first n characters of a string (JavaScript String.prototype.slice with
a zero start). -/
def strTake (s : String) (n : Nat) : String :=
  String.mk (s.data.take n)

/-- Split of a character list at every separator character.  JavaScript's
split on a one-character-class regex with + collapses separator runs instead
of producing empty segments; the empty segments this model keeps are filtered
out by every length bound applied downstream, so the two agree on all uses. -/
def splitChars (p : Char → Bool) : List Char → List (List Char)
  | [] => [[]]
  | c :: rest =>
    let r := splitChars p rest
    if p c then [] :: r
    else
      match r with
      | [] => [[c]]
      | h :: t => (c :: h) :: t

/-- String split at every separator character. -/
def strSplit (s : String) (p : Char → Bool) : List String :=
  (splitChars p s.data).map String.mk

/-- One research record as fetched from the store (interface SourceResult in
the source).  Optional fields are kept optional; the analyzers default them
exactly where the code does. -/
structure SourceResult where
  id : String
  title : String
  summary : Option String
  participants : Option (List String)
  content : Option String
  created_at : String
  projects : List String
deriving Repr, DecidableEq

/-- The concatenation the analyzers build from a record: summary and content
joined by one space, absent fields defaulting to the empty string. -/
def recordText (s : SourceResult) : String :=
  (s.summary.getD ("")) ++ (" ") ++ (s.content.getD (""))

/-- Insertion-ordered association-list lookup (JavaScript Map.prototype.get). -/
def mapGet {V : Type} (k : String) : List (String × V) → Option V
  | [] => none
  | (k₁, v) :: rest => if k₁ = k then some v else mapGet k rest

/-- Insertion-ordered association-list update (JavaScript Map.prototype.set):
an existing key keeps its position, a new key is appended at the end. -/
def mapSet {V : Type} (m : List (String × V)) (k : String) (v : V) : List (String × V) :=
  match m with
  | [] => [(k, v)]
  | (k₁, v₁) :: rest => if k₁ = k then (k, v) :: rest else (k₁, v₁) :: mapSet rest k v

-- ===========================================================================
-- Hypothesis evaluator (hypothesisTool.handler)
-- ===========================================================================

/-- The evaluator's fixed stop-word set. -/
def stopWords : List String :=
  ["users", "find", "the", "a", "an", "is", "are", "that", "this", "to", "for",
   "of", "in", "on", "with"]

/-- Keyword extraction: lowercase, split on whitespace, keep words longer than
3 characters that are not stop words. -/
def extractKeywords (hypothesis : String) : List String :=
  (strSplit (strToLower hypothesis) Char.isWhitespace).filter
    (fun w => decide (3 < w.length) && !(stopWords.contains w))

/-- The evaluator's fixed positive-sentiment vocabulary. -/
def positiveWords : List String :=
  ["love", "great", "easy", "helpful", "good", "like", "enjoy", "simple"]

/-- The evaluator's fixed negative-sentiment vocabulary. -/
def negativeWords : List String :=
  ["hate", "confusing", "hard", "difficult", "frustrating", "stress",
   "annoying", "pain", "problem"]

/-- The lowercased concatenated summary-and-content of a record. -/
def lowerText (s : SourceResult) : String :=
  strToLower (recordText s)

/-- How many extracted keywords occur as substrings of the record's lowercased
concatenated text. -/
def kwMatchCount (kws : List String) (s : SourceResult) : Nat :=
  (kws.filter (fun k => strIncludes (lowerText s) k)).length

/-- How many fixed positive-sentiment words occur in the record's text. -/
def posCount (s : SourceResult) : Nat :=
  (positiveWords.filter (fun w => strIncludes (lowerText s) w)).length

/-- How many fixed negative-sentiment words occur in the record's text. -/
def negCount (s : SourceResult) : Nat :=
  (negativeWords.filter (fun w => strIncludes (lowerText s) w)).length

/-- The evidence snippet: the summary's first 200 characters, with the fixed
sentinel when the summary is absent or the sliced text is empty (JavaScript
summary?.slice(0, 200) followed by a falsiness fallback). -/
def snippetOf (summary : Option String) : String :=
  match summary.map (fun t => strTake t 200) with
  | none => "No summary available"
  | some t => if t = "" then "No summary available" else t

/-- One supporting or contradicting evidence entry: source title and snippet. -/
structure Evidence where
  source : String
  evidence : String
deriving Repr, DecidableEq

/-- The evaluator's per-record loop: build the supporting list, the
contradicting list and the neutral-title list, in input order, with the
code's skip-and-classify structure. -/
def processSources (kws : List String) : List SourceResult → List Evidence × List Evidence × List String
  | [] => ([], [], [])
  | s :: rest =>
    let res := processSources kws rest
    if kwMatchCount kws s = 0 then res
    else if posCount s < negCount s then
      (Evidence.mk s.title (snippetOf s.summary) :: res.1, res.2.1, res.2.2)
    else if negCount s < posCount s then
      (res.1, Evidence.mk s.title (snippetOf s.summary) :: res.2.1, res.2.2)
    else if 2 ≤ kwMatchCount kws s then
      (res.1, res.2.1, s.title :: res.2.2)
    else res

/-- Classification predicate for the supporting list: at least one keyword
match and strictly more negative than positive sentiment words. -/
def isSupporting (kws : List String) (s : SourceResult) : Bool :=
  decide (0 < kwMatchCount kws s ∧ posCount s < negCount s)

/-- Classification predicate for the contradicting list: at least one keyword
match and strictly more positive than negative sentiment words. -/
def isContradicting (kws : List String) (s : SourceResult) : Bool :=
  decide (0 < kwMatchCount kws s ∧ negCount s < posCount s)

/-- Classification predicate for a neutral mention: at least two keyword
matches and equal sentiment counts. -/
def isNeutral (kws : List String) (s : SourceResult) : Bool :=
  decide (2 ≤ kwMatchCount kws s ∧ negCount s = posCount s)

/-- The hypothesis evaluator's returned result object. -/
structure HypResult where
  hypothesis : String
  verdict : String
  confidence : String
  supporting : List Evidence
  contradicting : List Evidence
  neutral_mentions : Nat
  recommendation : Option String
deriving Repr, DecidableEq

/-- The evaluator's aggregation after the fetch: classify the records, derive
verdict and confidence from the untruncated counts, truncate both evidence
lists to 5 entries. -/
def runHypothesis (hypothesis : String) (store : List SourceResult) : HypResult :=
  let kws := extractKeywords hypothesis
  let res := processSources kws store
  let supporting := res.1
  let contradicting := res.2.1
  let neutral := res.2.2
  let totalEvidence := supporting.length + contradicting.length
  let vc : String × String :=
    if 3 ≤ totalEvidence then
      if contradicting.length * 2 < supporting.length then
        ("SUPPORTED", if 5 ≤ supporting.length then "HIGH" else "MEDIUM")
      else if supporting.length * 2 < contradicting.length then
        ("CONTRADICTED", if 5 ≤ contradicting.length then "HIGH" else "MEDIUM")
      else ("MIXED", "MEDIUM")
    else ("INSUFFICIENT_EVIDENCE", "LOW")
  { hypothesis := hypothesis
    verdict := vc.1
    confidence := vc.2
    supporting := supporting.take 5
    contradicting := contradicting.take 5
    neutral_mentions := neutral.length
    recommendation :=
      if vc.1 = "INSUFFICIENT_EVIDENCE" then
        some ("Need more user interviews to validate this hypothesis")
      else if vc.1 = "MIXED" then
        some ("Consider segmenting users - hypothesis may be true for some segments")
      else none }

/-- The full tool handler in invocation order: validate the hypothesis
argument (absent or empty is falsy and throws) before any fetch, then fetch
once and aggregate.  The second component counts the data fetches performed. -/
def hypothesisToolHandler (hypothesisArg : Option String) (store : List SourceResult) :
    Except String HypResult × Nat :=
  if hypothesisArg.getD ("") = "" then (Except.error ("hypothesis is required"), 0)
  else (Except.ok (runHypothesis (hypothesisArg.getD ("")) store), 1)

/-- Verdict exactly as the specification words it, as a function of the
untruncated supporting count S and contradicting count C. -/
def verdictSpec (S C : Nat) : String :=
  if 3 ≤ S + C then
    if 2 * C < S then "SUPPORTED"
    else if 2 * S < C then "CONTRADICTED"
    else "MIXED"
  else "INSUFFICIENT_EVIDENCE"

/-- Confidence exactly as the specification words it, as a function of the
untruncated supporting count S and contradicting count C. -/
def confidenceSpec (S C : Nat) : String :=
  if 3 ≤ S + C then
    if 2 * C < S then (if 5 ≤ S then "HIGH" else "MEDIUM")
    else if 2 * S < C then (if 5 ≤ C then "HIGH" else "MEDIUM")
    else "MEDIUM"
  else "LOW"

-- ===========================================================================
-- Speaker aggregator (speakersTool.handler)
-- ===========================================================================

/-- The fixed theme vocabulary used by the speaker aggregator. -/
def themeKeywords : List String :=
  ["pricing", "trust", "time", "dealer", "negotiation", "research", "stress",
   "confidence"]

/-- Whether a participant survives the optional speaker filter.  In the code
the skip test is (speakerFilter && !includes): an absent filter and the falsy
empty-string filter never skip, a non-empty filter requires a case-insensitive
substring match. -/
def passesFilter (filter : Option String) (name : String) : Bool :=
  match filter with
  | none => true
  | some f => decide (f = "") || strIncludes (strToLower name) (strToLower f)

/-- Insertion-ordered set insertion (JavaScript Set.prototype.add). -/
def setAdd (ts : List String) (kw : String) : List String :=
  if ts.contains kw then ts else ts ++ [kw]

/-- Per-speaker accumulated data. -/
structure SpeakerData where
  appearances : Nat
  sources : List String
  themes : List String
deriving Repr, DecidableEq

/-- Processing of one participant occurrence of one record: skip on filter
failure, otherwise bump the appearance count, push the record title, and add
every theme keyword found in the record's summary. -/
def speakerStep (filter : Option String) (title summary : String)
    (m : List (String × SpeakerData)) (p : String) : List (String × SpeakerData) :=
  if passesFilter filter p then
    let existing := (mapGet p m).getD (SpeakerData.mk 0 [] [])
    let themes := themeKeywords.foldl
      (fun ts kw => if strIncludes (strToLower summary) kw then setAdd ts kw else ts)
      existing.themes
    mapSet m p (SpeakerData.mk (existing.appearances + 1) (existing.sources ++ [title]) themes)
  else m

/-- The aggregation loop over all records and their participant lists. -/
def buildSpeakerMap (filter : Option String) (store : List SourceResult) :
    List (String × SpeakerData) :=
  store.foldl
    (fun m s => (s.participants.getD []).foldl
      (speakerStep filter s.title (s.summary.getD (""))) m)
    []

/-- One formatted speaker profile of the result. -/
structure SpeakerProfile where
  name : String
  appearances : Nat
  sources : List String
  themes : List String
deriving Repr, DecidableEq

/-- Stable insertion (descending by key) of one element into a sorted list:
the element goes after every earlier element with a greater-or-equal key. -/
def insertDesc {α : Type} (key : α → Nat) (a : α) : List α → List α
  | [] => [a]
  | b :: bs => if key b < key a then a :: b :: bs else b :: insertDesc key a bs

/-- Stable sort, descending by a numeric key: the model of the stable
JavaScript Array.prototype.sort with comparator (a, b) => key b - key a. -/
def stableSortDesc {α : Type} (key : α → Nat) (l : List α) : List α :=
  l.foldl (fun acc a => insertDesc key a acc) []

/-- The profiles in the order the handler produces before truncation: mapped
from the speaker map (titles capped at 5) and stably sorted descending by
appearance count. -/
def sortedSpeakerProfiles (filter : Option String) (store : List SourceResult) :
    List SpeakerProfile :=
  stableSortDesc (fun p => p.appearances)
    ((buildSpeakerMap filter store).map
      (fun e => SpeakerProfile.mk e.1 e.2.appearances (e.2.sources.take 5) e.2.themes))

/-- The speakers tool's returned result object. -/
structure SpeakersResult where
  total_speakers : Nat
  profiles : List SpeakerProfile
deriving Repr, DecidableEq

/-- The speakers tool handler: aggregate, sort, and truncate the profile list
to 10 exactly when the filter argument is falsy (absent or empty). -/
def speakersToolHandler (speakerArg : Option String) (store : List SourceResult) :
    SpeakersResult :=
  let sorted := sortedSpeakerProfiles speakerArg store
  { total_speakers := sorted.length
    profiles :=
      match speakerArg with
      | none => sorted.take 10
      | some f => if f = "" then sorted.take 10 else sorted }

/-- The filter-respecting participant occurrence list: every participant
occurrence of every record, in order, that passes the filter. -/
def filteredParticipants (filter : Option String) (store : List SourceResult) : List String :=
  (store.flatMap (fun s => s.participants.getD [])).filter (passesFilter filter)

/-- The flattening of the aggregation's nested loops: one entry per
participant occurrence, carrying the participant name, the record title and
the record's defaulted summary. -/
def speakerEntries (store : List SourceResult) : List (String × String × String) :=
  store.flatMap
    (fun s => (s.participants.getD []).map (fun p => (p, s.title, s.summary.getD (""))))

/-- The aggregation step on one flattened entry. -/
def entryStep (filter : Option String) (m : List (String × SpeakerData))
    (e : String × String × String) : List (String × SpeakerData) :=
  speakerStep filter e.2.1 e.2.2 m e.1

/-- The appearance count the speaker map stores for a name (0 if absent). -/
def appAt (m : List (String × SpeakerData)) (p : String) : Nat :=
  match mapGet p m with
  | some d => d.appearances
  | none => 0

-- ===========================================================================
-- Pain-point classifier (painPointsTool.handler)
-- ===========================================================================

/-- Case-insensitive alternation search: the model of an /i-flagged regex that
is an alternation of literals, tested anywhere in the text. -/
def reAny (alts : List String) (t : String) : Bool :=
  alts.any (fun a => strIncludes (strToLower t) a)

/-- Match of the pattern trade.?in at the start of a character list: the
literal trade, then an optional single non-newline character, then in. -/
def tradeInAt (cs : List Char) : Bool :=
  ("tradein").data.isPrefixOf cs ||
    (("trade").data.isPrefixOf cs &&
      match cs.drop 5 with
      | [] => false
      | c :: rest => decide (c ≠ '\n') && ("in").data.isPrefixOf rest)

/-- Anywhere-match of a character-list pattern (regex search semantics). -/
def anyPosition (p : List Char → Bool) : List Char → Bool
  | [] => p []
  | c :: cs => p (c :: cs) || anyPosition p cs

/-- The test of the regex /trade.?in|value/i. -/
def tradeInTest (t : String) : Bool :=
  anyPosition tradeInAt (strToLower t).data || strIncludes (strToLower t) ("value")

/-- One fixed pain-point rule: regex test, category label, keyword list. -/
structure PainPattern where
  test : String → Bool
  category : String
  keywords : List String

/-- The ten fixed pain-point rules of the classifier, in source order.  Each
/i-flagged regex is an alternation of literals except trade.?in|value. -/
def painPointPatterns : List PainPattern :=
  [PainPattern.mk (reAny ["price", "pricing", "prices"]) ("Pricing Confusion")
      ["price", "pricing", "cost", "expensive", "overpriced"],
   PainPattern.mk (reAny ["trust", "honest", "scam", "shady"]) ("Trust Issues")
      ["trust", "honest", "scam", "shady", "skeptical"],
   PainPattern.mk (reAny ["time", "hours", "long", "slow"]) ("Time Consuming")
      ["time", "hours", "long", "slow", "waiting"],
   PainPattern.mk (reAny ["negotiat"]) ("Negotiation Stress")
      ["negotiate", "negotiation", "haggle", "bargain"],
   PainPattern.mk (reAny ["dealer", "salesperson", "sales"]) ("Dealer Experience")
      ["dealer", "salesperson", "pushy", "pressure"],
   PainPattern.mk (reAny ["research", "information", "compare"]) ("Research Burden")
      ["research", "information", "compare", "options"],
   PainPattern.mk (reAny ["confus", "overwhelm", "complicated"]) ("Complexity")
      ["confusing", "overwhelming", "complicated", "complex"],
   PainPattern.mk (reAny ["financ", "loan", "credit", "payment"]) ("Financing")
      ["financing", "loan", "credit", "payment", "interest"],
   PainPattern.mk tradeInTest ("Trade-in Value")
      ["trade-in", "value", "worth"],
   PainPattern.mk (reAny ["hidden", "fee", "surprise"]) ("Hidden Costs")
      ["hidden", "fees", "surprise", "unexpected"]]

/-- Sentence split of the concatenated text on the separators . ! ? . -/
def sentencesOf (t : String) : List String :=
  strSplit t (fun c => c = '.' || c = '!' || c = '?')

/-- Whether a sentence qualifies as a sample quote for a keyword list: it
contains some keyword case-insensitively and its (untrimmed) length is
strictly between 20 and 200 characters. -/
def qualifies (keywords : List String) (sentence : String) : Bool :=
  keywords.any (fun k => strIncludes (strToLower sentence) k) &&
    decide (20 < sentence.length) && decide (sentence.length < 200)

/-- Per-category accumulated data of the classifier. -/
structure PainData where
  count : Nat
  sources : List String
  quotes : List String
deriving Repr, DecidableEq

/-- The quote update of one match: when a first qualifying sentence was found
and fewer than 3 quotes are stored, append its trimmed form. -/
def pushQuoteAux (found : Option String) (quotes : List String) : List String :=
  match found with
  | some sentence =>
    if quotes.length < 3 then quotes ++ [jsTrim sentence] else quotes
  | none => quotes

/-- The per-match update of one category's accumulated data: bump the count,
record the title once, and update the quotes from the first qualifying
sentence of the record's concatenated text. -/
def painUpdate (s : SourceResult) (pp : PainPattern) (existing : PainData) : PainData :=
  PainData.mk (existing.count + 1)
    (if existing.sources.contains s.title then existing.sources
     else existing.sources ++ [s.title])
    (pushQuoteAux ((sentencesOf (recordText s)).find? (qualifies pp.keywords))
      existing.quotes)

/-- Processing of one (record, rule) pair: on a regex match apply the update
to the category's data (a fresh zero entry when absent). -/
def painStep (s : SourceResult) (m : List (String × PainData)) (pp : PainPattern) :
    List (String × PainData) :=
  if pp.test (recordText s) then
    mapSet m pp.category (painUpdate s pp ((mapGet pp.category m).getD (PainData.mk 0 [] [])))
  else m

/-- The classification loop over all records and all ten rules. -/
def buildPainMap (store : List SourceResult) : List (String × PainData) :=
  store.foldl (fun m s => painPointPatterns.foldl (painStep s) m) []

/-- The match count the pain map stores for a category (0 if absent). -/
def countAt (m : List (String × PainData)) (c : String) : Nat :=
  match mapGet c m with
  | some d => d.count
  | none => 0

/-- The invariant of a category's accumulated data: at most 3 quotes, and
every quote is the trimmed form of the first qualifying sentence of some
record of the store, for the rule of this category. -/
def QuoteInv (store : List SourceResult) (c : String) (d : PainData) : Prop :=
  d.quotes.length ≤ 3 ∧
    ∀ q ∈ d.quotes, ∃ pat ∈ painPointPatterns, pat.category = c ∧
      ∃ s ∈ store, ∃ sent,
        (sentencesOf (recordText s)).find? (qualifies pat.keywords) = some sent ∧
        q = jsTrim sent

/-- One formatted pain-point entry of the result. -/
structure PainPoint where
  category : String
  frequency : Nat
  sources_count : Nat
  sample_sources : List String
  sample_quotes : List String
deriving Repr, DecidableEq

/-- The pain-points tool's returned result object. -/
structure PainPointsResult where
  total_sources_analyzed : Nat
  pain_points : List PainPoint
  top_pain_point : String
  coverage_note : Option String
deriving Repr, DecidableEq

/-- The effective limit: the falsy limit arguments 0 and absent default to
10 (JavaScript limit || 10). -/
def defaultLimit (limitArg : Option Nat) : Nat :=
  match limitArg with
  | none => 10
  | some 0 => 10
  | some n => n

/-- The pain-point entries in handler order before truncation: mapped from
the pain map and stably sorted descending by frequency. -/
def sortedPainPoints (store : List SourceResult) : List PainPoint :=
  stableSortDesc (fun p => p.frequency)
    ((buildPainMap store).map
      (fun e => PainPoint.mk e.1 e.2.count e.2.sources.length (e.2.sources.take 3) e.2.quotes))

/-- The pain-points tool handler: classify, sort by frequency descending,
truncate to the limit, and derive the top pain point or its sentinel. -/
def painPointsToolHandler (limitArg : Option Nat) (store : List SourceResult) :
    PainPointsResult :=
  let painPoints := (sortedPainPoints store).take (defaultLimit limitArg)
  { total_sources_analyzed := store.length
    pain_points := painPoints
    top_pain_point :=
      match painPoints.head? with
      | some p => if p.category = "" then "None identified" else p.category
      | none => "None identified"
    coverage_note :=
      if store.length < 5 then
        some ("Limited data - need more user interviews for reliable pain point analysis")
      else none }

-- ===========================================================================
-- Source fetcher (getAllSources, both modes)
-- ===========================================================================

/-- The options object the host-query mode passes to the host's query
capability: the project and a fixed record cap of 200. -/
structure QueryOptions where
  project : String
  limit : Option Nat
deriving Repr, DecidableEq

/-- The request the host-query mode issues (context.query with limit 200). -/
def hostQueryOptions (project : String) : QueryOptions :=
  QueryOptions.mk project (some 200)

/-- The REST request shape of the direct data-store mode: selected columns, a
project-containment filter, descending creation-time order and an optional
row cap taken from the request URL's parameters. -/
structure RestRequest where
  table : String
  selectCols : List String
  projectFilter : String
  orderDesc : Bool
  limit : Option Nat
deriving Repr, DecidableEq

/-- The REST request getAllSources builds in direct mode: its URL carries
select, project-containment and order parameters but no limit parameter. -/
def getAllSourcesRestRequest (project : String) : RestRequest :=
  RestRequest.mk ("sources")
    ["id", "title", "summary", "participants", "content", "created_at"]
    project true none

/-- Modelled from the spec: the external data store (host query capability or
REST endpoint), which is not part of this repository, applies the
project-containment filter and the optional row cap of a request; the
creation-time ordering is irrelevant to record counts and is not modelled. -/
def runStoreQuery (projectFilter : String) (limit : Option Nat)
    (dbStore : List SourceResult) : List SourceResult :=
  let matching := dbStore.filter (fun s => s.projects.contains projectFilter)
  match limit with
  | some n => matching.take n
  | none => matching

/-- The record sequence the host-query mode hands to the analyzers. -/
def getAllSourcesHost (project : String) (dbStore : List SourceResult) : List SourceResult :=
  runStoreQuery (hostQueryOptions project).project (hostQueryOptions project).limit dbStore

/-- The record sequence the direct REST mode hands to the analyzers. -/
def getAllSourcesRest (project : String) (dbStore : List SourceResult) : List SourceResult :=
  runStoreQuery (getAllSourcesRestRequest project).projectFilter
    (getAllSourcesRestRequest project).limit dbStore

-- ===========================================================================
-- Concrete inputs used by counterexamples and witnesses
-- ===========================================================================

/-- A record whose participant list contains the same name twice. -/
def dupStore : List SourceResult :=
  [SourceResult.mk ("1") ("T") none (some ["Sam", "Sam"]) none ("") []]

/-- A record with a distinct single participant, indexed by a number. -/
def mkSpeakerRec (n : Nat) : SourceResult :=
  SourceResult.mk (toString n) ("T") none (some [("P") ++ toString n]) none ("") []

/-- Eleven records with eleven distinct participants. -/
def elevenStore : List SourceResult :=
  (List.range 11).map mkSpeakerRec

/-- A record whose only sentence has untrimmed length 21 (within the strict
20..200 bound) but trims to exactly 20 characters: the summary has 20
characters and the concatenation appends one space for the absent content. -/
def quoteRec : SourceResult :=
  SourceResult.mk ("1") ("T") (some ("price aaaaaaaaaaaaaa")) none none ("") []

/-- A record tagged with the ridekick project, for fetch counterexamples. -/
def ridekickRec : SourceResult :=
  SourceResult.mk ("1") ("T") none none none ("") ["ridekick"]

/-- A record with an absent summary whose content matches the keyword of the
hypothesis used in witnesses and carries one negative sentiment word. -/
def noSummaryRec : SourceResult :=
  SourceResult.mk ("1") ("T") none none (some ("confusing pricing stuff")) ("") []

/-- A record with a present summary that the witness hypothesis classifies as
contradicting (one positive sentiment word, no negative one). -/
def withSummaryRec : SourceResult :=
  SourceResult.mk ("2") ("U") (some ("great pricing experience")) none none ("") []

/-- A mixed store: one record with a summary and one without. -/
def mixedStore : List SourceResult :=
  [withSummaryRec, noSummaryRec]

-- ===========================================================================
-- Helper lemmas
-- ===========================================================================

lemma length_dropWhile_le {α : Type} (p : α → Bool) (l : List α) :
    (l.dropWhile p).length ≤ l.length := by
  induction l with
  | nil => simp
  | cons a l ih =>
    by_cases h : p a <;> simp [List.dropWhile_cons, h] <;> omega

lemma jsTrim_length_le (s : String) : (jsTrim s).length ≤ s.length := by
  show (((s.data.dropWhile Char.isWhitespace).reverse.dropWhile
      Char.isWhitespace).reverse).length ≤ s.data.length
  rw [List.length_reverse]
  calc ((s.data.dropWhile Char.isWhitespace).reverse.dropWhile Char.isWhitespace).length
      ≤ (s.data.dropWhile Char.isWhitespace).reverse.length := length_dropWhile_le _ _
    _ = (s.data.dropWhile Char.isWhitespace).length := List.length_reverse _
    _ ≤ s.data.length := length_dropWhile_le _ _

lemma mapGet_mapSet_self {V : Type} (m : List (String × V)) (k : String) (v : V) :
    mapGet k (mapSet m k v) = some v := by
  induction m with
  | nil => simp [mapSet, mapGet]
  | cons e rest ih =>
    obtain ⟨k₁, v₁⟩ := e
    by_cases h : k₁ = k <;> simp [mapSet, mapGet, h, ih]

lemma mapGet_cons {V : Type} (k k₁ : String) (v₁ : V) (rest : List (String × V)) :
    mapGet k ((k₁, v₁) :: rest) = if k₁ = k then some v₁ else mapGet k rest := rfl

lemma mapGet_mapSet_ne {V : Type} (m : List (String × V)) (k k₂ : String) (v : V)
    (h : k₂ ≠ k) : mapGet k₂ (mapSet m k v) = mapGet k₂ m := by
  induction m with
  | nil => simp [mapSet, mapGet_cons, if_neg (Ne.symm h), mapGet]
  | cons e rest ih =>
    obtain ⟨k₁, v₁⟩ := e
    by_cases h₁ : k₁ = k
    · subst h₁
      simp [mapSet, mapGet_cons, Ne.symm h]
    · simp only [mapSet, if_neg h₁, mapGet_cons, ih]

lemma keys_mapSet {V : Type} (m : List (String × V)) (k : String) (v : V) :
    (mapSet m k v).map Prod.fst =
      if k ∈ m.map Prod.fst then m.map Prod.fst else m.map Prod.fst ++ [k] := by
  induction m with
  | nil => simp [mapSet]
  | cons e rest ih =>
    obtain ⟨k₁, v₁⟩ := e
    by_cases h : k₁ = k
    · subst h
      simp [mapSet]
    · have hne : ¬ k = k₁ := fun hh => h hh.symm
      by_cases hmem : k ∈ rest.map Prod.fst <;>
        simp [mapSet, h, hne, hmem, ih]

lemma nodup_keys_mapSet {V : Type} (m : List (String × V)) (k : String) (v : V)
    (hnd : (m.map Prod.fst).Nodup) : ((mapSet m k v).map Prod.fst).Nodup := by
  rw [keys_mapSet]
  by_cases h : k ∈ m.map Prod.fst
  · simpa [h]
  · simp only [h, if_false]
    rw [List.nodup_append]
    exact ⟨hnd, List.nodup_singleton k, by
      intro a ha hak
      simp only [List.mem_singleton] at hak
      exact h (hak ▸ ha)⟩

lemma mem_of_mapGet_eq_some {V : Type} {m : List (String × V)} {k : String} {v : V}
    (h : mapGet k m = some v) : (k, v) ∈ m := by
  induction m with
  | nil => simp [mapGet] at h
  | cons e rest ih =>
    obtain ⟨k₁, v₁⟩ := e
    by_cases h₁ : k₁ = k
    · subst h₁
      rw [mapGet_cons, if_pos rfl] at h
      obtain rfl := Option.some.inj h
      exact List.mem_cons_self _ _
    · rw [mapGet_cons, if_neg h₁] at h
      exact List.mem_cons_of_mem _ (ih h)

lemma mapGet_eq_some_of_mem {V : Type} {m : List (String × V)} {k : String} {v : V}
    (hnd : (m.map Prod.fst).Nodup) (hm : (k, v) ∈ m) : mapGet k m = some v := by
  induction m with
  | nil => simp at hm
  | cons e rest ih =>
    obtain ⟨k₁, v₁⟩ := e
    simp only [List.map_cons, List.nodup_cons] at hnd
    rcases List.mem_cons.mp hm with heq | hmem
    · injection heq with h₁ h₂
      subst h₁
      subst h₂
      simp [mapGet]
    · have hk : k₁ ≠ k := by
        intro h
        subst h
        exact hnd.1 (List.mem_map.mpr ⟨(k₁, v), hmem, rfl⟩)
      simp only [mapGet, if_neg hk]
      exact ih hnd.2 hmem

lemma mem_mapSet {V : Type} {m : List (String × V)} {k : String} {v : V}
    {cd : String × V} (h : cd ∈ mapSet m k v) : cd ∈ m ∨ cd = (k, v) := by
  induction m with
  | nil => simp [mapSet] at h; right; exact h
  | cons e rest ih =>
    obtain ⟨k₁, v₁⟩ := e
    by_cases h₁ : k₁ = k
    · subst h₁
      simp only [mapSet, if_pos rfl] at h
      rcases List.mem_cons.mp h with heq | hmem
      · right; exact heq
      · left; exact List.mem_cons_of_mem _ hmem
    · simp only [mapSet, if_neg h₁] at h
      rcases List.mem_cons.mp h with heq | hmem
      · left; exact heq ▸ List.mem_cons_self _ _
      · rcases ih hmem with hm | hkv
        · left; exact List.mem_cons_of_mem _ hm
        · right; exact hkv

lemma length_insertDesc {α : Type} (key : α → Nat) (a : α) (l : List α) :
    (insertDesc key a l).length = l.length + 1 := by
  induction l with
  | nil => rfl
  | cons b bs ih =>
    by_cases h : key b < key a <;> simp [insertDesc, h, ih]

lemma mem_insertDesc {α : Type} (key : α → Nat) (a x : α) (l : List α) :
    x ∈ insertDesc key a l ↔ x = a ∨ x ∈ l := by
  induction l with
  | nil => simp [insertDesc]
  | cons b bs ih =>
    by_cases h : key b < key a <;> simp [insertDesc, h, ih] <;> tauto

lemma length_stableSortDesc {α : Type} (key : α → Nat) (l : List α) :
    (stableSortDesc key l).length = l.length := by
  suffices h : ∀ acc : List α,
      (l.foldl (fun acc a => insertDesc key a acc) acc).length = acc.length + l.length by
    simpa [stableSortDesc] using h []
  induction l with
  | nil => simp
  | cons a as ih =>
    intro acc
    simp only [List.foldl_cons, ih, length_insertDesc, List.length_cons]
    omega

lemma mem_stableSortDesc {α : Type} (key : α → Nat) (x : α) (l : List α) :
    x ∈ stableSortDesc key l ↔ x ∈ l := by
  suffices h : ∀ acc : List α,
      (x ∈ l.foldl (fun acc a => insertDesc key a acc) acc ↔ x ∈ acc ∨ x ∈ l) by
    simpa [stableSortDesc] using h []
  induction l with
  | nil => simp
  | cons a as ih =>
    intro acc
    simp only [List.foldl_cons, ih, mem_insertDesc, List.mem_cons]
    tauto

lemma filter_replicate_pos {α : Type} (p : α → Bool) (a : α) (h : p a = true) (n : Nat) :
    (List.replicate n a).filter p = List.replicate n a := by
  induction n with
  | zero => rfl
  | succ n ih => simp [List.replicate_succ, List.filter_cons, h, ih]

-- ===========================================================================
-- Hypothesis evaluator lemmas
-- ===========================================================================

lemma snippetOf_empty (o : Option String) (h : o = none ∨ o = some "") :
    snippetOf o = "No summary available" := by
  rcases h with rfl | rfl <;> decide

lemma processSources_char (kws : List String) (store : List SourceResult) :
    processSources kws store =
      ((store.filter (isSupporting kws)).map
          (fun s => Evidence.mk s.title (snippetOf s.summary)),
       (store.filter (isContradicting kws)).map
          (fun s => Evidence.mk s.title (snippetOf s.summary)),
       (store.filter (isNeutral kws)).map (fun s => s.title)) := by
  induction store with
  | nil => rfl
  | cons s rest ih =>
    simp only [processSources, ih, List.filter_cons]
    by_cases h₀ : kwMatchCount kws s = 0
    · have hs : isSupporting kws s = false := by simp [isSupporting]; omega
      have hc : isContradicting kws s = false := by simp [isContradicting]; omega
      have hn : isNeutral kws s = false := by simp [isNeutral]; omega
      simp [h₀, hs, hc, hn]
    · by_cases h₁ : posCount s < negCount s
      · have hs : isSupporting kws s = true := by simp [isSupporting]; omega
        have hc : isContradicting kws s = false := by simp [isContradicting]; omega
        have hn : isNeutral kws s = false := by simp [isNeutral]; omega
        simp [h₀, h₁, hs, hc, hn]
      · by_cases h₂ : negCount s < posCount s
        · have hs : isSupporting kws s = false := by simp [isSupporting]; omega
          have hc : isContradicting kws s = true := by simp [isContradicting]; omega
          have hn : isNeutral kws s = false := by simp [isNeutral]; omega
          simp [h₀, h₁, h₂, hs, hc, hn]
        · by_cases h₃ : 2 ≤ kwMatchCount kws s
          · have hs : isSupporting kws s = false := by simp [isSupporting]; omega
            have hc : isContradicting kws s = false := by simp [isContradicting]; omega
            have hn : isNeutral kws s = true := by simp [isNeutral]; omega
            simp [h₀, h₁, h₂, h₃, hs, hc, hn]
          · have hs : isSupporting kws s = false := by simp [isSupporting]; omega
            have hc : isContradicting kws s = false := by simp [isContradicting]; omega
            have hn : isNeutral kws s = false := by simp [isNeutral]; omega
            simp [h₀, h₁, h₂, h₃, hs, hc, hn]

lemma runHypothesis_supporting (h : String) (store : List SourceResult) :
    (runHypothesis h store).supporting =
      (processSources (extractKeywords h) store).1.take 5 := by
  simp [runHypothesis]

lemma runHypothesis_contradicting (h : String) (store : List SourceResult) :
    (runHypothesis h store).contradicting =
      (processSources (extractKeywords h) store).2.1.take 5 := by
  simp [runHypothesis]

-- ===========================================================================
-- Claims about the hypothesis evaluator
-- ===========================================================================

/-- C1: for every list of records and every non-empty hypothesis, the
evaluator derives verdict and confidence from the untruncated supporting
count S and contradicting count C exactly as the specification states
(SUPPORTED when S > 2C with confidence HIGH iff S ≥ 5, CONTRADICTED when
C > 2S with confidence HIGH iff C ≥ 5, MIXED/MEDIUM otherwise, and
INSUFFICIENT_EVIDENCE/LOW when S + C < 3), while the returned supporting and
contradicting lists are the untruncated lists cut to at most 5 entries. -/
theorem hypothesis_verdict_from_counts (h : String) (store : List SourceResult)
    (hne : h ≠ "") :
    hypothesisToolHandler (some h) store = (Except.ok (runHypothesis h store), 1) ∧
    (runHypothesis h store).verdict =
      verdictSpec (processSources (extractKeywords h) store).1.length
        (processSources (extractKeywords h) store).2.1.length ∧
    (runHypothesis h store).confidence =
      confidenceSpec (processSources (extractKeywords h) store).1.length
        (processSources (extractKeywords h) store).2.1.length ∧
    (runHypothesis h store).supporting =
      (processSources (extractKeywords h) store).1.take 5 ∧
    (runHypothesis h store).contradicting =
      (processSources (extractKeywords h) store).2.1.take 5 := by
  refine ⟨?_, ?_, ?_, runHypothesis_supporting h store, runHypothesis_contradicting h store⟩
  · simp [hypothesisToolHandler, hne]
  · simp only [runHypothesis, verdictSpec]
    split_ifs <;> first | rfl | omega
  · simp only [runHypothesis, confidenceSpec]
    split_ifs <;> first | rfl | omega

/-- Witness for C1 at a concrete non-empty hypothesis and store. -/
theorem hypothesis_verdict_from_counts_witness :
    hypothesisToolHandler (some ("pricing")) [noSummaryRec] =
      (Except.ok (runHypothesis ("pricing") [noSummaryRec]), 1) ∧
    (runHypothesis ("pricing") [noSummaryRec]).verdict =
      verdictSpec (processSources (extractKeywords ("pricing")) [noSummaryRec]).1.length
        (processSources (extractKeywords ("pricing")) [noSummaryRec]).2.1.length ∧
    (runHypothesis ("pricing") [noSummaryRec]).confidence =
      confidenceSpec (processSources (extractKeywords ("pricing")) [noSummaryRec]).1.length
        (processSources (extractKeywords ("pricing")) [noSummaryRec]).2.1.length ∧
    (runHypothesis ("pricing") [noSummaryRec]).supporting =
      (processSources (extractKeywords ("pricing")) [noSummaryRec]).1.take 5 ∧
    (runHypothesis ("pricing") [noSummaryRec]).contradicting =
      (processSources (extractKeywords ("pricing")) [noSummaryRec]).2.1.take 5 :=
  hypothesis_verdict_from_counts ("pricing") [noSummaryRec] (by decide)

/-- C2: a record with at least one keyword match lands in the supporting list
exactly when it has strictly more negative than positive sentiment words, in
the contradicting list exactly when strictly more positive, and is a neutral
mention exactly when the counts are equal with at least two keyword matches
(equal counts with fewer matches drop the record from all three lists); no
record satisfies the supporting and the contradicting condition at once, so
no record is ever classified into both lists. -/
theorem hypothesis_classification_rule (h : String) (store : List SourceResult) :
    (processSources (extractKeywords h) store).1 =
      (store.filter (isSupporting (extractKeywords h))).map
        (fun s => Evidence.mk s.title (snippetOf s.summary)) ∧
    (processSources (extractKeywords h) store).2.1 =
      (store.filter (isContradicting (extractKeywords h))).map
        (fun s => Evidence.mk s.title (snippetOf s.summary)) ∧
    (processSources (extractKeywords h) store).2.2 =
      (store.filter (isNeutral (extractKeywords h))).map (fun s => s.title) ∧
    store.filter
      (fun s => isSupporting (extractKeywords h) s && isContradicting (extractKeywords h) s)
      = [] := by
  have hc := processSources_char (extractKeywords h) store
  refine ⟨by rw [hc], by rw [hc], by rw [hc], ?_⟩
  induction store with
  | nil => rfl
  | cons s rest ih =>
    have hfalse :
        (isSupporting (extractKeywords h) s && isContradicting (extractKeywords h) s)
          = false := by
      simp only [isSupporting, isContradicting, Bool.and_eq_false_iff,
        decide_eq_false_iff_not]
      omega
    simp only [List.filter_cons, hfalse, if_false, Bool.false_eq_true]
    exact ih (processSources_char (extractKeywords h) rest)

/-- C9: the hypothesis tool reports the error before performing any data
fetch whenever the hypothesis argument is absent or empty (both falsy in the
code), and never raises this error for a non-empty hypothesis.  The second
component of the handler's result counts the fetches performed. -/
theorem hypothesis_error_before_fetch (hArg : Option String) (store : List SourceResult) :
    ((hArg = none ∨ hArg = some "") →
      hypothesisToolHandler hArg store = (Except.error ("hypothesis is required"), 0)) ∧
    (∀ t, hArg = some t → t ≠ "" →
      hypothesisToolHandler hArg store = (Except.ok (runHypothesis t store), 1)) := by
  constructor
  · rintro (rfl | rfl) <;> rfl
  · rintro t rfl ht
    simp [hypothesisToolHandler, ht]

/-- Witness for C9: the error is raised with zero fetches for the absent
argument, and a concrete non-empty hypothesis is evaluated after one fetch. -/
theorem hypothesis_error_before_fetch_witness :
    hypothesisToolHandler none [] = (Except.error ("hypothesis is required"), 0) ∧
    hypothesisToolHandler (some ("pricing")) [] =
      (Except.ok (runHypothesis ("pricing") []), 1) :=
  ⟨(hypothesis_error_before_fetch none []).1 (Or.inl rfl),
   (hypothesis_error_before_fetch (some ("pricing")) []).2 ("pricing") rfl (by decide)⟩

/-- C10: for every record of any store whose summary is absent or empty, the
evidence entry the evaluator builds for that record is its title paired with
the fixed sentinel "No summary available" — never an empty excerpt — and
that sentinel entry is a member of the supporting (resp. contradicting)
classification list whenever the record is classified there, also in stores
mixing it with records that do have summaries. -/
theorem empty_summary_evidence_sentinel (h : String) (store : List SourceResult)
    (s : SourceResult) (hs : s ∈ store)
    (hsum : s.summary = none ∨ s.summary = some "") :
    (isSupporting (extractKeywords h) s = true →
      Evidence.mk s.title ("No summary available") ∈
        (processSources (extractKeywords h) store).1) ∧
    (isContradicting (extractKeywords h) s = true →
      Evidence.mk s.title ("No summary available") ∈
        (processSources (extractKeywords h) store).2.1) ∧
    Evidence.mk s.title (snippetOf s.summary) =
      Evidence.mk s.title ("No summary available") := by
  have hchar := processSources_char (extractKeywords h) store
  have hsnip : snippetOf s.summary = "No summary available" := snippetOf_empty s.summary hsum
  refine ⟨?_, ?_, by rw [hsnip]⟩
  · intro hsup
    rw [hchar]
    simp only [List.mem_map]
    refine ⟨s, List.mem_filter.mpr ⟨hs, hsup⟩, ?_⟩
    rw [hsnip]
  · intro hcon
    rw [hchar]
    simp only [List.mem_map]
    refine ⟨s, List.mem_filter.mpr ⟨hs, hcon⟩, ?_⟩
    rw [hsnip]

/-- Witness for C10 at a mixed store: the summary-less record, classified as
supporting, contributes its title with the sentinel to the supporting list,
alongside a record that does have a summary. -/
theorem empty_summary_evidence_sentinel_witness :
    Evidence.mk noSummaryRec.title ("No summary available") ∈
      (processSources (extractKeywords ("pricing")) mixedStore).1 ∧
    Evidence.mk noSummaryRec.title (snippetOf noSummaryRec.summary) =
      Evidence.mk noSummaryRec.title ("No summary available") :=
  ⟨(empty_summary_evidence_sentinel ("pricing") mixedStore noSummaryRec (by decide)
      (by decide)).1 (by decide),
   (empty_summary_evidence_sentinel ("pricing") mixedStore noSummaryRec (by decide)
      (by decide)).2.2⟩

-- ===========================================================================
-- Speaker aggregator lemmas
-- ===========================================================================

lemma length_filter_of_map {α β : Type} (f : α → β) (P : β → Bool) (l : List α) :
    ((l.map f).filter P).length = (l.filter (fun a => P (f a))).length := by
  induction l with
  | nil => rfl
  | cons a l ih =>
    by_cases h : P (f a) <;> simp [List.filter_cons, h, ih]

lemma inner_fold_eq (filter : Option String) (t sm : String) (ps : List String)
    (init : List (String × SpeakerData)) :
    ps.foldl (speakerStep filter t sm) init =
      (ps.map (fun p => (p, t, sm))).foldl (entryStep filter) init := by
  rw [List.foldl_map]
  rfl

lemma speakerEntries_cons (s : SourceResult) (store : List SourceResult) :
    speakerEntries (s :: store) =
      (s.participants.getD []).map (fun p => (p, s.title, s.summary.getD (""))) ++
        speakerEntries store := by
  simp [speakerEntries]

lemma buildSpeakerMap_eq (filter : Option String) (store : List SourceResult) :
    buildSpeakerMap filter store = (speakerEntries store).foldl (entryStep filter) [] := by
  suffices h : ∀ init, store.foldl
      (fun m s => (s.participants.getD []).foldl
        (speakerStep filter s.title (s.summary.getD (""))) m) init
      = (speakerEntries store).foldl (entryStep filter) init from h []
  induction store with
  | nil => intro init; rfl
  | cons s rest ih =>
    intro init
    rw [List.foldl_cons, speakerEntries_cons, List.foldl_append, ← inner_fold_eq, ih]

lemma speakerEntries_names (store : List SourceResult) :
    (speakerEntries store).map (fun e => e.1) =
      store.flatMap (fun s => s.participants.getD []) := by
  simp [speakerEntries, List.map_flatMap, List.map_map, Function.comp_def]

lemma appAt_speakerStep (filter : Option String) (t sm : String)
    (m : List (String × SpeakerData)) (q p : String) :
    appAt (speakerStep filter t sm m q) p =
      appAt m p + (if passesFilter filter q && decide (q = p) then 1 else 0) := by
  by_cases hq : passesFilter filter q
  · by_cases hqp : q = p
    · subst hqp
      cases hmg : mapGet q m with
      | none => simp [speakerStep, hq, appAt, hmg, mapGet_mapSet_self]
      | some d => simp [speakerStep, hq, appAt, hmg, mapGet_mapSet_self]
    · have hpq : p ≠ q := fun hh => hqp hh.symm
      simp [speakerStep, hq, appAt, mapGet_mapSet_ne _ _ _ _ hpq, hqp]
  · simp [speakerStep, hq]

lemma appAt_entryFold (filter : Option String) (es : List (String × String × String)) :
    ∀ (m : List (String × SpeakerData)) (p : String),
      appAt (es.foldl (entryStep filter) m) p =
        appAt m p +
          (es.filter (fun e => passesFilter filter e.1 && decide (e.1 = p))).length := by
  induction es with
  | nil => intro m p; simp
  | cons e rest ih =>
    intro m p
    simp only [List.foldl_cons, ih, entryStep, appAt_speakerStep, List.filter_cons]
    by_cases hcond : (passesFilter filter e.1 && decide (e.1 = p)) = true
    · simp only [hcond, if_true, List.length_cons]
      omega
    · have hcond₂ : (passesFilter filter e.1 && decide (e.1 = p)) = false := by
        simpa using hcond
      simp [hcond₂]

lemma mem_keys_speakerStep (filter : Option String) (t sm : String)
    (m : List (String × SpeakerData)) (q k : String) :
    k ∈ (speakerStep filter t sm m q).map Prod.fst ↔
      k ∈ m.map Prod.fst ∨ (passesFilter filter q = true ∧ k = q) := by
  by_cases hq : passesFilter filter q
  · simp only [speakerStep, if_pos hq, keys_mapSet]
    by_cases hmem : q ∈ m.map Prod.fst
    · simp only [hmem, if_true, hq, true_and]
      constructor
      · exact Or.inl
      · rintro (hk | rfl)
        · exact hk
        · exact hmem
    · simp [hmem, hq, List.mem_append]
  · simp [speakerStep, hq]

lemma nodup_keys_speakerStep (filter : Option String) (t sm : String)
    (m : List (String × SpeakerData)) (q : String)
    (h : (m.map Prod.fst).Nodup) : ((speakerStep filter t sm m q).map Prod.fst).Nodup := by
  by_cases hq : passesFilter filter q
  · simp only [speakerStep, if_pos hq]
    exact nodup_keys_mapSet _ _ _ h
  · simpa [speakerStep, hq]

lemma nodup_keys_entryFold (filter : Option String) (es : List (String × String × String)) :
    ∀ m : List (String × SpeakerData), (m.map Prod.fst).Nodup →
      ((es.foldl (entryStep filter) m).map Prod.fst).Nodup := by
  induction es with
  | nil => intro m h; simpa
  | cons e rest ih =>
    intro m h
    exact ih _ (nodup_keys_speakerStep _ _ _ _ _ h)

lemma mem_keys_entryFold (filter : Option String) (es : List (String × String × String)) :
    ∀ (m : List (String × SpeakerData)) (k : String),
      k ∈ (es.foldl (entryStep filter) m).map Prod.fst ↔
        k ∈ m.map Prod.fst ∨ k ∈ (es.map (fun e => e.1)).filter (passesFilter filter) := by
  induction es with
  | nil => intro m k; simp
  | cons e rest ih =>
    intro m k
    rw [List.foldl_cons, ih]
    simp only [entryStep]
    rw [mem_keys_speakerStep]
    simp only [List.map_cons, List.filter_cons]
    by_cases hq : passesFilter filter e.1
    · simp only [hq, if_true, List.mem_cons, true_and]
      tauto
    · simp only [hq, if_false]
      rw [if_neg (by simp [hq])]
      tauto

lemma length_buildSpeakerMap (filter : Option String) (store : List SourceResult) :
    (buildSpeakerMap filter store).length =
      (filteredParticipants filter store).dedup.length := by
  have hb := buildSpeakerMap_eq filter store
  have hnd : ((buildSpeakerMap filter store).map Prod.fst).Nodup := by
    rw [hb]
    exact nodup_keys_entryFold filter (speakerEntries store) [] (by simp)
  have hmem : ∀ k, k ∈ (buildSpeakerMap filter store).map Prod.fst ↔
      k ∈ filteredParticipants filter store := by
    intro k
    rw [hb, mem_keys_entryFold, filteredParticipants, speakerEntries_names]
    simp
  have hfin : ((buildSpeakerMap filter store).map Prod.fst).toFinset =
      (filteredParticipants filter store).toFinset := by
    apply Finset.ext
    intro k
    simp only [List.mem_toFinset]
    exact hmem k
  calc (buildSpeakerMap filter store).length
      = ((buildSpeakerMap filter store).map Prod.fst).length := (List.length_map _ _).symm
    _ = ((buildSpeakerMap filter store).map Prod.fst).toFinset.card :=
        (List.toFinset_card_of_nodup hnd).symm
    _ = (filteredParticipants filter store).toFinset.card := by rw [hfin]
    _ = (filteredParticipants filter store).dedup.length := List.card_toFinset _

-- ===========================================================================
-- Claims about the speaker aggregator
-- ===========================================================================

/-- C3 (amended): total_speakers equals the number of distinct participant
names passing the filter across all records, computed before truncation; the
profiles list is truncated to the top 10 when the filter argument is absent
or the (falsy) empty string, and returned untruncated exactly when a
non-empty filter was supplied. -/
theorem speakers_total_and_truncation (speakerArg : Option String)
    (store : List SourceResult) :
    (speakersToolHandler speakerArg store).total_speakers =
      (filteredParticipants speakerArg store).dedup.length ∧
    ((speakerArg = none ∨ speakerArg = some "") →
      (speakersToolHandler speakerArg store).profiles =
        (sortedSpeakerProfiles speakerArg store).take 10) ∧
    (∀ f, speakerArg = some f → f ≠ "" →
      (speakersToolHandler speakerArg store).profiles =
        sortedSpeakerProfiles speakerArg store) := by
  refine ⟨?_, ?_, ?_⟩
  · show (sortedSpeakerProfiles speakerArg store).length = _
    rw [sortedSpeakerProfiles, length_stableSortDesc, List.length_map]
    exact length_buildSpeakerMap speakerArg store
  · rintro (rfl | rfl) <;> rfl
  · rintro f rfl hf
    simp [speakersToolHandler, hf]

/-- Witness for C3 at a concrete non-empty filter and store. -/
theorem speakers_total_and_truncation_witness :
    (speakersToolHandler (some ("am")) dupStore).total_speakers =
      (filteredParticipants (some ("am")) dupStore).dedup.length ∧
    (speakersToolHandler (some ("am")) dupStore).profiles =
      sortedSpeakerProfiles (some ("am")) dupStore :=
  ⟨(speakers_total_and_truncation (some ("am")) dupStore).1,
   (speakers_total_and_truncation (some ("am")) dupStore).2.2 ("am") rfl (by decide)⟩

/-- Counterexample to C3 as stated: eleven records with eleven distinct
participants and the supplied (but empty) filter string still yield only 10
profiles — the list is truncated although a filter was supplied, because the
empty string is falsy in the truncation test. -/
theorem speakers_truncation_counterexample :
    (speakersToolHandler (some ("")) elevenStore).total_speakers = 11 ∧
    (speakersToolHandler (some ("")) elevenStore).profiles.length = 10 := by
  decide

/-- C4 (amended): a profile's appearances field equals the number of
participant-list occurrences of the name (passing the filter) summed over all
records — one record listing the name twice contributes two, not one. -/
theorem speakers_appearances_count_occurrences (speakerArg : Option String)
    (store : List SourceResult) :
    ∀ p ∈ (speakersToolHandler speakerArg store).profiles,
      p.appearances =
        ((store.flatMap (fun s => s.participants.getD [])).filter
          (fun n => passesFilter speakerArg n && decide (n = p.name))).length := by
  intro p hp
  have hp₁ : p ∈ sortedSpeakerProfiles speakerArg store := by
    have hcase : (speakersToolHandler speakerArg store).profiles =
        (sortedSpeakerProfiles speakerArg store).take 10 ∨
        (speakersToolHandler speakerArg store).profiles =
          sortedSpeakerProfiles speakerArg store := by
      rcases speakerArg with _ | f
      · left; rfl
      · by_cases hf : f = ""
        · left; simp [speakersToolHandler, hf]
        · right; simp [speakersToolHandler, hf]
    rcases hcase with hc | hc
    · exact List.mem_of_mem_take (hc ▸ hp)
    · exact hc ▸ hp
  rw [sortedSpeakerProfiles, mem_stableSortDesc] at hp₁
  simp only [List.mem_map] at hp₁
  obtain ⟨⟨k, d⟩, hkd, rfl⟩ := hp₁
  have hnd : ((buildSpeakerMap speakerArg store).map Prod.fst).Nodup := by
    rw [buildSpeakerMap_eq]
    exact nodup_keys_entryFold speakerArg (speakerEntries store) [] (by simp)
  have hget : mapGet k (buildSpeakerMap speakerArg store) = some d :=
    mapGet_eq_some_of_mem hnd hkd
  have happ : appAt (buildSpeakerMap speakerArg store) k = d.appearances := by
    simp [appAt, hget]
  have hfold : appAt (buildSpeakerMap speakerArg store) k =
      ((speakerEntries store).filter
        (fun e => passesFilter speakerArg e.1 && decide (e.1 = k))).length := by
    rw [buildSpeakerMap_eq, appAt_entryFold]
    simp [appAt, mapGet]
  show d.appearances = _
  rw [← happ, hfold, ← speakerEntries_names, length_filter_of_map]

/-- Witness for C4 at the concrete duplicated-participant store. -/
theorem speakers_appearances_count_occurrences_witness :
    (SpeakerProfile.mk ("Sam") 2 ["T", "T"] []).appearances =
      ((dupStore.flatMap (fun s => s.participants.getD [])).filter
        (fun n => passesFilter none n &&
          decide (n = (SpeakerProfile.mk ("Sam") 2 ["T", "T"] []).name))).length :=
  speakers_appearances_count_occurrences none dupStore
    (SpeakerProfile.mk ("Sam") 2 ["T", "T"] []) (by decide)

/-- Counterexample to C4 as stated: a single record listing the same
participant twice yields a profile with appearances 2, while the number of
records in whose participant list the name appears is 1. -/
theorem speakers_appearances_counterexample :
    (speakersToolHandler none dupStore).profiles =
      [SpeakerProfile.mk ("Sam") 2 ["T", "T"] []] ∧
    (dupStore.filter (fun s => (s.participants.getD []).contains ("Sam"))).length = 1 := by
  decide

-- ===========================================================================
-- Pain-point classifier lemmas
-- ===========================================================================

lemma filter_false_nil {α : Type} (p : α → Bool) (l : List α)
    (h : ∀ a ∈ l, p a = false) : l.filter p = [] := by
  induction l with
  | nil => rfl
  | cons a l ih =>
    simp [List.filter_cons, h a (List.mem_cons_self a l),
      ih (fun b hb => h b (List.mem_cons_of_mem a hb))]

lemma painStep_test_true {s : SourceResult} {m : List (String × PainData)}
    {pp : PainPattern} (ht : pp.test (recordText s) = true) :
    painStep s m pp =
      mapSet m pp.category
        (painUpdate s pp ((mapGet pp.category m).getD (PainData.mk 0 [] []))) := by
  simp [painStep, ht]

lemma painStep_test_false {s : SourceResult} {m : List (String × PainData)}
    {pp : PainPattern} (ht : pp.test (recordText s) = false) :
    painStep s m pp = m := by
  simp [painStep, ht]

lemma countAt_painStep (s : SourceResult) (m : List (String × PainData))
    (pp : PainPattern) (c : String) :
    countAt (painStep s m pp) c =
      countAt m c + (if pp.test (recordText s) && decide (pp.category = c) then 1 else 0) := by
  by_cases ht : pp.test (recordText s)
  · by_cases hc : pp.category = c
    · subst hc
      cases hmg : mapGet pp.category m with
      | none =>
        simp [painStep_test_true ht, countAt, hmg, mapGet_mapSet_self, ht, painUpdate]
      | some d =>
        simp [painStep_test_true ht, countAt, hmg, mapGet_mapSet_self, ht, painUpdate]
    · have hcc : c ≠ pp.category := fun hh => hc hh.symm
      simp [painStep_test_true ht, countAt, mapGet_mapSet_ne _ _ _ _ hcc, hc]
  · have ht₂ : pp.test (recordText s) = false := by simpa using ht
    simp [painStep_test_false ht₂, ht₂]

lemma countAt_patFold (s : SourceResult) (pats : List PainPattern) :
    ∀ (m : List (String × PainData)) (c : String),
      countAt (pats.foldl (painStep s) m) c =
        countAt m c +
          (pats.filter (fun pp => pp.test (recordText s) && decide (pp.category = c))).length := by
  induction pats with
  | nil => intro m c; simp
  | cons pp rest ih =>
    intro m c
    simp only [List.foldl_cons, ih, countAt_painStep, List.filter_cons]
    by_cases hcond : (pp.test (recordText s) && decide (pp.category = c)) = true
    · simp only [hcond, if_true, List.length_cons]
      omega
    · have hcond₂ : (pp.test (recordText s) && decide (pp.category = c)) = false := by
        simpa using hcond
      simp [hcond₂]

lemma nodupCategories : (painPointPatterns.map (fun pp => pp.category)).Nodup := by
  decide

lemma filter_unique_category {pats : List PainPattern}
    (hnd : (pats.map (fun pp => pp.category)).Nodup)
    {p : PainPattern} (hp : p ∈ pats) (t : String) :
    (pats.filter (fun pp => pp.test t && decide (pp.category = p.category))).length =
      if p.test t then 1 else 0 := by
  induction pats with
  | nil => simp at hp
  | cons q rest ih =>
    simp only [List.map_cons, List.nodup_cons] at hnd
    by_cases hqc : q.category = p.category
    · have hpq : p = q := by
        rcases List.mem_cons.mp hp with rfl | hmem
        · rfl
        · exfalso
          apply hnd.1
          rw [hqc]
          exact List.mem_map.mpr ⟨p, hmem, rfl⟩
      subst hpq
      have hall : ∀ pp ∈ rest, (pp.test t && decide (pp.category = p.category)) = false := by
        intro pp hppmem
        have hne : pp.category ≠ p.category := by
          intro he
          apply hnd.1
          rw [hqc, ← he]
          exact List.mem_map.mpr ⟨pp, hppmem, rfl⟩
        simp [hne]
      have hrest := filter_false_nil _ _ hall
      by_cases hpt : p.test t <;> simp [List.filter_cons, hpt, hrest]
    · have hpmem : p ∈ rest := by
        rcases List.mem_cons.mp hp with rfl | hmem
        · exact absurd rfl hqc
        · exact hmem
      have hqcond : (q.test t && decide (q.category = p.category)) = false := by
        simp [hqc]
      simp only [List.filter_cons, hqcond]
      rw [if_neg (by simp)]
      exact ih hnd.2 hpmem

lemma countAt_buildPainMap {p : PainPattern} (hp : p ∈ painPointPatterns)
    (store : List SourceResult) :
    countAt (buildPainMap store) p.category =
      (store.filter (fun s => p.test (recordText s))).length := by
  suffices h : ∀ m, countAt
      (store.foldl (fun m s => painPointPatterns.foldl (painStep s) m) m) p.category =
      countAt m p.category + (store.filter (fun s => p.test (recordText s))).length by
    have h₀ := h []
    simpa [buildPainMap, countAt, mapGet] using h₀
  induction store with
  | nil => intro m; simp
  | cons s rest ih =>
    intro m
    rw [List.foldl_cons, ih, countAt_patFold, filter_unique_category nodupCategories hp]
    simp only [List.filter_cons]
    by_cases hts : p.test (recordText s) = true
    · simp only [hts, if_true, List.length_cons]
      omega
    · have hts₂ : p.test (recordText s) = false := by simpa using hts
      simp [hts₂]

lemma mem_keys_painStep {s : SourceResult} {m : List (String × PainData)}
    {pp : PainPattern} {c : String} (h : c ∈ (painStep s m pp).map Prod.fst) :
    c ∈ m.map Prod.fst ∨ c = pp.category := by
  by_cases ht : pp.test (recordText s)
  · rw [painStep_test_true ht, keys_mapSet] at h
    by_cases hmem : pp.category ∈ m.map Prod.fst
    · rw [if_pos hmem] at h
      exact Or.inl h
    · rw [if_neg hmem] at h
      rcases List.mem_append.mp h with h₁ | h₁
      · exact Or.inl h₁
      · simp at h₁
        exact Or.inr h₁
  · have ht₂ : pp.test (recordText s) = false := by simpa using ht
    rw [painStep_test_false ht₂] at h
    exact Or.inl h

lemma mem_keys_patFold (s : SourceResult) (pats : List PainPattern) :
    ∀ (m : List (String × PainData)) (c : String),
      c ∈ (pats.foldl (painStep s) m).map Prod.fst →
        c ∈ m.map Prod.fst ∨ c ∈ pats.map (fun pp => pp.category) := by
  induction pats with
  | nil => intro m c h; exact Or.inl h
  | cons pp rest ih =>
    intro m c h
    rcases ih _ _ h with h₁ | h₁
    · rcases mem_keys_painStep h₁ with h₂ | h₂
      · exact Or.inl h₂
      · right
        simp only [List.map_cons]
        exact h₂ ▸ List.mem_cons_self _ _
    · right
      simp only [List.map_cons]
      exact List.mem_cons_of_mem _ h₁

lemma mem_keys_outerFold (store : List SourceResult) :
    ∀ (m : List (String × PainData)) (c : String),
      c ∈ (store.foldl (fun m s => painPointPatterns.foldl (painStep s) m) m).map Prod.fst →
        c ∈ m.map Prod.fst ∨ c ∈ painPointPatterns.map (fun pp => pp.category) := by
  induction store with
  | nil => intro m c h; exact Or.inl h
  | cons s rest ih =>
    intro m c h
    rw [List.foldl_cons] at h
    rcases ih _ _ h with h₂ | h₂
    · exact mem_keys_patFold s painPointPatterns m c h₂
    · exact Or.inr h₂

lemma mem_keys_buildPainMap {store : List SourceResult} {c : String}
    (hc : c ∈ (buildPainMap store).map Prod.fst) :
    c ∈ painPointPatterns.map (fun pp => pp.category) := by
  rcases mem_keys_outerFold store [] c hc with h₁ | h₁
  · simp at h₁
  · exact h₁

lemma nodup_keys_painStep (s : SourceResult) (m : List (String × PainData))
    (pp : PainPattern) (h : (m.map Prod.fst).Nodup) :
    ((painStep s m pp).map Prod.fst).Nodup := by
  by_cases ht : pp.test (recordText s)
  · rw [painStep_test_true ht]
    exact nodup_keys_mapSet _ _ _ h
  · have ht₂ : pp.test (recordText s) = false := by simpa using ht
    rw [painStep_test_false ht₂]
    exact h

lemma nodup_keys_patFold (s : SourceResult) (pats : List PainPattern) :
    ∀ m : List (String × PainData), (m.map Prod.fst).Nodup →
      ((pats.foldl (painStep s) m).map Prod.fst).Nodup := by
  induction pats with
  | nil => intro m h; exact h
  | cons pp rest ih =>
    intro m h
    exact ih _ (nodup_keys_painStep s m pp h)

lemma nodup_keys_buildPainMap (store : List SourceResult) :
    ((buildPainMap store).map Prod.fst).Nodup := by
  suffices h : ∀ m : List (String × PainData), (m.map Prod.fst).Nodup →
      ((store.foldl (fun m s => painPointPatterns.foldl (painStep s) m) m).map
        Prod.fst).Nodup from h [] (by simp)
  induction store with
  | nil => intro m h; exact h
  | cons s rest ih =>
    intro m h
    exact ih _ (nodup_keys_patFold s painPointPatterns m h)

lemma length_pushQuoteAux (found : Option String) (quotes : List String)
    (h : quotes.length ≤ 3) : (pushQuoteAux found quotes).length ≤ 3 := by
  cases found with
  | none => exact h
  | some sent =>
    by_cases h₃ : quotes.length < 3
    · simp only [pushQuoteAux, if_pos h₃, List.length_append, List.length_singleton]
      omega
    · simpa [pushQuoteAux, h₃] using h

lemma mem_pushQuoteAux {found : Option String} {quotes : List String} {q : String}
    (h : q ∈ pushQuoteAux found quotes) :
    q ∈ quotes ∨ ∃ sent, found = some sent ∧ q = jsTrim sent := by
  cases found with
  | none => exact Or.inl h
  | some sent =>
    by_cases h₃ : quotes.length < 3
    · rw [show pushQuoteAux (some sent) quotes = quotes ++ [jsTrim sent] from by
        simp [pushQuoteAux, h₃]] at h
      rcases List.mem_append.mp h with h₁ | h₁
      · exact Or.inl h₁
      · simp at h₁
        exact Or.inr ⟨sent, rfl, h₁⟩
    · rw [show pushQuoteAux (some sent) quotes = quotes from by
        simp [pushQuoteAux, h₃]] at h
      exact Or.inl h

lemma quoteInv_painUpdate (store : List SourceResult) (s : SourceResult)
    (pp : PainPattern) (hs : s ∈ store) (hpp : pp ∈ painPointPatterns)
    (existing : PainData) (hex : QuoteInv store pp.category existing) :
    QuoteInv store pp.category (painUpdate s pp existing) := by
  obtain ⟨hlen, hq⟩ := hex
  refine ⟨length_pushQuoteAux _ _ hlen, ?_⟩
  intro q hqmem
  rcases mem_pushQuoteAux hqmem with h | ⟨sent, hfind, rfl⟩
  · exact hq q h
  · exact ⟨pp, hpp, rfl, s, hs, sent, hfind, rfl⟩

lemma quoteInv_painStep (store : List SourceResult) (s : SourceResult)
    (hs : s ∈ store) (pp : PainPattern) (hpp : pp ∈ painPointPatterns)
    (m : List (String × PainData)) (hm : ∀ cd ∈ m, QuoteInv store cd.1 cd.2) :
    ∀ cd ∈ painStep s m pp, QuoteInv store cd.1 cd.2 := by
  intro cd hcd
  by_cases ht : pp.test (recordText s)
  · rw [painStep_test_true ht] at hcd
    rcases mem_mapSet hcd with h | rfl
    · exact hm cd h
    · apply quoteInv_painUpdate store s pp hs hpp
      cases hmg : mapGet pp.category m with
      | none => exact ⟨by simp, by simp⟩
      | some d => exact hm (pp.category, d) (mem_of_mapGet_eq_some hmg)
  · have ht₂ : pp.test (recordText s) = false := by simpa using ht
    rw [painStep_test_false ht₂] at hcd
    exact hm cd hcd

lemma quoteInv_patFold (store : List SourceResult) (s : SourceResult)
    (hs : s ∈ store) (pats : List PainPattern)
    (hpats : ∀ pp ∈ pats, pp ∈ painPointPatterns) :
    ∀ m : List (String × PainData), (∀ cd ∈ m, QuoteInv store cd.1 cd.2) →
      ∀ cd ∈ pats.foldl (painStep s) m, QuoteInv store cd.1 cd.2 := by
  induction pats with
  | nil => intro m hm; exact hm
  | cons pp rest ih =>
    intro m hm
    exact ih (fun pp₂ h₂ => hpats pp₂ (List.mem_cons_of_mem _ h₂)) _
      (quoteInv_painStep store s hs pp (hpats pp (List.mem_cons_self _ _)) m hm)

lemma quoteInv_buildPainMap (store : List SourceResult) :
    ∀ cd ∈ buildPainMap store, QuoteInv store cd.1 cd.2 := by
  suffices h : ∀ srcs : List SourceResult, (∀ x ∈ srcs, x ∈ store) →
      ∀ m : List (String × PainData), (∀ cd ∈ m, QuoteInv store cd.1 cd.2) →
      ∀ cd ∈ srcs.foldl (fun m s => painPointPatterns.foldl (painStep s) m) m,
        QuoteInv store cd.1 cd.2 from
    h store (fun x hx => hx) [] (by simp)
  intro srcs
  induction srcs with
  | nil => intro _ m hm; exact hm
  | cons s rest ih =>
    intro hsub m hm
    exact ih (fun x hx => hsub x (List.mem_cons_of_mem _ hx)) _
      (quoteInv_patFold store s (hsub s (List.mem_cons_self _ _)) painPointPatterns
        (fun _ h => h) m hm)

lemma painPoints_mem_elim {limitArg : Option Nat} {store : List SourceResult}
    {pp : PainPoint} (hpp : pp ∈ (painPointsToolHandler limitArg store).pain_points) :
    ∃ cd ∈ buildPainMap store,
      pp = PainPoint.mk cd.1 cd.2.count cd.2.sources.length (cd.2.sources.take 3)
        cd.2.quotes := by
  have hform : (painPointsToolHandler limitArg store).pain_points =
      (sortedPainPoints store).take (defaultLimit limitArg) := rfl
  rw [hform] at hpp
  have hpp₁ := List.mem_of_mem_take hpp
  rw [sortedPainPoints, mem_stableSortDesc] at hpp₁
  simp only [List.mem_map] at hpp₁
  obtain ⟨cd, hcd, rfl⟩ := hpp₁
  exact ⟨cd, hcd, rfl⟩

-- ===========================================================================
-- Claims about the pain-point classifier
-- ===========================================================================

/-- C5: every reported pain point's frequency equals the number of input
records matching that category's regex — each matching record contributes
exactly 1 however often the pattern occurs in its text — and is therefore at
most the number of input records. -/
theorem painPoints_frequency_per_record (limitArg : Option Nat)
    (store : List SourceResult) :
    ∀ pp ∈ (painPointsToolHandler limitArg store).pain_points,
      (∃ pat ∈ painPointPatterns, pat.category = pp.category ∧
        pp.frequency = (store.filter (fun s => pat.test (recordText s))).length) ∧
      pp.frequency ≤ store.length := by
  intro pp hpp
  obtain ⟨⟨c, d⟩, hcd, rfl⟩ := painPoints_mem_elim hpp
  have hc : c ∈ painPointPatterns.map (fun pp => pp.category) :=
    mem_keys_buildPainMap (List.mem_map.mpr ⟨(c, d), hcd, rfl⟩)
  obtain ⟨pat, hpat, hcat⟩ := List.mem_map.mp hc
  have hnd := nodup_keys_buildPainMap store
  have hget : mapGet c (buildPainMap store) = some d := mapGet_eq_some_of_mem hnd hcd
  have hcount : d.count = (store.filter (fun s => pat.test (recordText s))).length := by
    have h₁ := countAt_buildPainMap hpat store
    rw [hcat] at h₁
    simpa [countAt, hget] using h₁
  refine ⟨⟨pat, hpat, hcat, hcount⟩, ?_⟩
  show d.count ≤ store.length
  rw [hcount]
  exact List.length_filter_le _ _

/-- Witness for C5 at a concrete store with one matching record. -/
theorem painPoints_frequency_per_record_witness :
    (∃ pat ∈ painPointPatterns,
      pat.category = (PainPoint.mk ("Pricing Confusion") 1 1 ["T"]
        ["price aaaaaaaaaaaaaa"]).category ∧
      (PainPoint.mk ("Pricing Confusion") 1 1 ["T"] ["price aaaaaaaaaaaaaa"]).frequency =
        ([quoteRec].filter (fun s => pat.test (recordText s))).length) ∧
    (PainPoint.mk ("Pricing Confusion") 1 1 ["T"] ["price aaaaaaaaaaaaaa"]).frequency ≤
      ([quoteRec] : List SourceResult).length :=
  painPoints_frequency_per_record none [quoteRec]
    (PainPoint.mk ("Pricing Confusion") 1 1 ["T"] ["price aaaaaaaaaaaaaa"]) (by decide)

/-- C6 (amended): every reported category carries at most 3 sample quotes,
and each quote is the trimmed form of the first sentence of some record's
concatenated text that contains one of the category's keywords and whose
untrimmed length is strictly between 20 and 200 characters; consequently
every returned quote is shorter than 200 characters, but trimming may bring a
returned quote's length to 20 or below. -/
theorem painPoints_quotes_shape (limitArg : Option Nat) (store : List SourceResult) :
    ∀ pp ∈ (painPointsToolHandler limitArg store).pain_points,
      pp.sample_quotes.length ≤ 3 ∧
      ∀ q ∈ pp.sample_quotes, q.length < 200 ∧
        ∃ pat ∈ painPointPatterns, pat.category = pp.category ∧
          ∃ s ∈ store, ∃ sent,
            (sentencesOf (recordText s)).find? (qualifies pat.keywords) = some sent ∧
            20 < sent.length ∧ sent.length < 200 ∧ q = jsTrim sent := by
  intro pp hpp
  obtain ⟨⟨c, d⟩, hcd, rfl⟩ := painPoints_mem_elim hpp
  obtain ⟨hlen, hmem⟩ := quoteInv_buildPainMap store (c, d) hcd
  refine ⟨hlen, ?_⟩
  intro q hq
  obtain ⟨pat, hpat, hcat, s, hsmem, sent, hfind, hqeq⟩ := hmem q hq
  have hqual : qualifies pat.keywords sent = true := List.find?_some hfind
  simp only [qualifies, Bool.and_eq_true, decide_eq_true_eq] at hqual
  refine ⟨?_, pat, hpat, hcat, s, hsmem, sent, hfind, hqual.1.2, hqual.2, hqeq⟩
  rw [hqeq]
  exact lt_of_le_of_lt (jsTrim_length_le sent) hqual.2

/-- Witness for C6 at the concrete one-record store and its single quote. -/
theorem painPoints_quotes_shape_witness :
    ("price aaaaaaaaaaaaaa" : String).length < 200 ∧
    ∃ pat ∈ painPointPatterns,
      pat.category = (PainPoint.mk ("Pricing Confusion") 1 1 ["T"]
        ["price aaaaaaaaaaaaaa"]).category ∧
      ∃ s ∈ [quoteRec], ∃ sent,
        (sentencesOf (recordText s)).find? (qualifies pat.keywords) = some sent ∧
        20 < sent.length ∧ sent.length < 200 ∧
        ("price aaaaaaaaaaaaaa" : String) = jsTrim sent :=
  (painPoints_quotes_shape none [quoteRec]
      (PainPoint.mk ("Pricing Confusion") 1 1 ["T"] ["price aaaaaaaaaaaaaa"])
      (by decide)).2 ("price aaaaaaaaaaaaaa") (by decide)

/-- Counterexample to C6 as stated: a record whose only sentence has
untrimmed length 21 (a trailing space included) passes the strict 20..200
bound, but the stored quote is trimmed to exactly 20 characters, so the
returned quote's length does not lie strictly between 20 and 200. -/
theorem painPoints_quote_length_counterexample :
    (painPointsToolHandler none [quoteRec]).pain_points =
      [PainPoint.mk ("Pricing Confusion") 1 1 ["T"] ["price aaaaaaaaaaaaaa"]] ∧
    ¬(20 < ("price aaaaaaaaaaaaaa" : String).length ∧
      ("price aaaaaaaaaaaaaa" : String).length < 200) := by
  decide

/-- C7: on zero records the classifier returns zero sources analyzed, an
empty pain-point list and the "None identified" sentinel (plus the low-data
advisory note), as a plain value — the handler has no failure path. -/
theorem painPoints_empty_input (limitArg : Option Nat) :
    painPointsToolHandler limitArg [] =
      PainPointsResult.mk 0 [] ("None identified")
        (some ("Limited data - need more user interviews for reliable pain point analysis")) := by
  have h₀ : sortedPainPoints [] = ([] : List PainPoint) := rfl
  simp [painPointsToolHandler, h₀, List.take_nil]

-- ===========================================================================
-- Claims about the source fetcher
-- ===========================================================================

/-- C8 (amended): the host-query mode's request fixes the row cap 200, so
that mode hands at most 200 records to the analyzers; the direct REST mode's
getAllSources request carries no row cap at all, so the records it hands on
are bounded only by the store. -/
theorem fetch_bound_host_only (project : String) (dbStore : List SourceResult) :
    (getAllSourcesHost project dbStore).length ≤ 200 ∧
    (hostQueryOptions project).limit = some 200 ∧
    (getAllSourcesRestRequest project).limit = none := by
  refine ⟨?_, rfl, rfl⟩
  show ((dbStore.filter (fun s => s.projects.contains project)).take 200).length ≤ 200
  exact List.length_take_le _ _

/-- Counterexample to C8 as stated: a store of 201 project-tagged records
makes the direct REST mode hand 201 records to the analyzers, exceeding the
claimed fixed bound of 200 — its request URL has no limit parameter. -/
theorem rest_fetch_unbounded_counterexample :
    (getAllSourcesRest ("ridekick") (List.replicate 201 ridekickRec)).length = 201 ∧
    ¬((getAllSourcesRest ("ridekick") (List.replicate 201 ridekickRec)).length ≤ 200) := by
  have hfilter : (List.replicate 201 ridekickRec).filter
      (fun s => s.projects.contains ("ridekick")) = List.replicate 201 ridekickRec :=
    filter_replicate_pos _ _ (by decide) 201
  have hlen : (getAllSourcesRest ("ridekick") (List.replicate 201 ridekickRec)).length = 201 := by
    show ((List.replicate 201 ridekickRec).filter
      (fun s => s.projects.contains ("ridekick"))).length = 201
    rw [hfilter, List.length_replicate]
  refine ⟨hlen, ?_⟩
  rw [hlen]
  decide

end Ridekick
